import Mathlib

/-!
Verification development for the strato-server-manager backup/restore/scheduling
core.  The Python modules `src/lib/scheduling.py`, `src/lib/backup.py` and
`src/lib/restore.py` are shallowly embedded below.

Modelling conventions:
* Python strings are embedded as `List Char`; a string literal `"s"` is
  embedded as `"s".data`.
* A crontab text is represented by its list of lines (`List (List Char)`),
  matching the Python code, which always manipulates the text via
  `content.split('\n')` and `'\n'.join(lines)`; individual lines contain no
  newline character.
* The installed OS crontab is `Option (List (List Char))`: `none` models
  `crontab -l` exiting non-zero (no crontab installed).
* External command outcomes (borg, ssh, docker, disk probes) are supplied by
  environment records of booleans; orchestrators additionally return a trace
  of the side-effecting steps they attempted, in order.
* `datetime.now()` timestamps are passed in as an explicit `now` argument.
-/

namespace StratoSM

/-- Whitespace as recognised by Python `str.split()` / `str.strip()`
(the ASCII whitespace characters). -/
def pyIsSpace (c : Char) : Bool :=
  c = ' ' || c = '\t' || c = '\n' || c = '\r' || c = '\x0b' || c = '\x0c'

/-- Negation of `pyIsSpace`, used as a `takeWhile` / `dropWhile` predicate. -/
def notSp (c : Char) : Bool := !pyIsSpace c

/-- Remove trailing Python whitespace. -/
def stripTrailing (l : List Char) : List Char :=
  (l.reverse.dropWhile pyIsSpace).reverse

/-- Python `str.strip()`: remove leading and trailing whitespace. -/
def pyStrip (l : List Char) : List Char :=
  stripTrailing (l.dropWhile pyIsSpace)

/-- Fuel-driven worker for Python `str.split(None, maxsplit)`.  The fuel is
always at least `l.length + 1`, which makes the fuel-out branch unreachable. -/
def pySplitMaxAux : Nat → Nat → List Char → List (List Char)
  | 0, _, _ => []
  | fuel + 1, maxsplit, l =>
    let l' := l.dropWhile pyIsSpace
    if l' = [] then []
    else if maxsplit = 0 then [l']
    else l'.takeWhile notSp :: pySplitMaxAux fuel (maxsplit - 1) (l'.dropWhile notSp)

/-- Python `str.split(None, maxsplit)`: split on whitespace runs, at most
`maxsplit` splits; once the budget is exhausted the remainder (leading
whitespace dropped) is the final chunk. -/
def pySplitMax (maxsplit : Nat) (l : List Char) : List (List Char) :=
  pySplitMaxAux (l.length + 1) maxsplit l

/-- Fuel-driven worker for Python `str.split()` (no maxsplit). -/
def pySplitWsAux : Nat → List Char → List (List Char)
  | 0, _ => []
  | fuel + 1, l =>
    let l' := l.dropWhile pyIsSpace
    if l' = [] then []
    else l'.takeWhile notSp :: pySplitWsAux fuel (l'.dropWhile notSp)

/-- Python `str.split()` with no arguments: split on whitespace runs. -/
def pySplitWs (l : List Char) : List (List Char) :=
  pySplitWsAux (l.length + 1) l

/-- Python `str.split(sep)` for a one-character separator: splits at every
occurrence, keeping empty chunks (so `splitOnChar c []` is `[[]]`). -/
def splitOnChar (sep : Char) : List Char → List (List Char)
  | [] => [[]]
  | c :: rest =>
    if c = sep then [] :: splitOnChar sep rest
    else
      match splitOnChar sep rest with
      | [] => [[c]]
      | p :: ps => (c :: p) :: ps

/-- Does the second list start with the first one? -/
def listStarts : List Char → List Char → Bool
  | _, [] => true
  | [], _ :: _ => false
  | c :: cs, p :: ps => (c = p : Bool) && listStarts cs ps

/-- Python `pat in s` substring containment. -/
def subIn (pat : List Char) : List Char → Bool
  | [] => pat.isEmpty
  | c :: rest => listStarts (c :: rest) pat || subIn pat rest

/-! Cron schedule validation, from `SchedulingManager._validate_cron_schedule`
(`src/lib/scheduling.py` lines 185-212).  Each Python regex has the shape
`^(\*|(N)(,N)*(/N)?)$` for a position-specific numeric atom `N`; the atoms
are transcribed below and the surrounding grammar is decided by splitting on
`/` and `,` (the atoms contain neither character, so this is equivalent to
the anchored regex). -/

/-- Character in the inclusive code-point range of `lo`..`hi`. -/
def chIn (lo hi c : Char) : Bool := lo.toNat ≤ c.toNat && c.toNat ≤ hi.toNat

/-- A decimal digit. -/
def isDigitCh (c : Char) : Bool := chIn '0' '9' c

/-- Minute atom `[0-5]?[0-9]`. -/
def minuteNum : List Char → Bool
  | [c] => isDigitCh c
  | [c1, c2] => chIn '0' '5' c1 && isDigitCh c2
  | _ => false

/-- Hour atom `[01]?[0-9]|2[0-3]`. -/
def hourNum : List Char → Bool
  | [c] => isDigitCh c
  | [c1, c2] => ((c1 = '0' || c1 = '1') && isDigitCh c2) || (c1 = '2' && chIn '0' '3' c2)
  | _ => false

/-- Day-of-month atom `[1-9]|[12][0-9]|3[01]`. -/
def dayNum : List Char → Bool
  | [c] => chIn '1' '9' c
  | [c1, c2] => ((c1 = '1' || c1 = '2') && isDigitCh c2) || (c1 = '3' && (c2 = '0' || c2 = '1'))
  | _ => false

/-- Month atom `[1-9]|1[0-2]`. -/
def monthNum : List Char → Bool
  | [c] => chIn '1' '9' c
  | [c1, c2] => c1 = '1' && chIn '0' '2' c2
  | _ => false

/-- Weekday atom `[0-6]`. -/
def weekdayNum : List Char → Bool
  | [c] => chIn '0' '6' c
  | _ => false

/-- The `(N)(,N)*` part: a nonempty comma-separated list of atoms. -/
def commaList (num : List Char → Bool) (body : List Char) : Bool :=
  (splitOnChar ',' body).all num

/-- One cron field against `^(\*|(N)(,N)*(/N)?)$`. -/
def fieldMatch (num : List Char → Bool) (l : List Char) : Bool :=
  if l = ['*'] then true
  else
    match splitOnChar '/' l with
    | [body] => commaList num body
    | [body, step] => commaList num body && num step
    | _ => false

/-- `SchedulingManager._validate_cron_schedule`: exactly 5 whitespace-separated
fields, each matching its positional regex. -/
def validateCronSchedule (schedule : List Char) : Bool :=
  match pySplitWs schedule with
  | [a, b, c, d, e] =>
    fieldMatch minuteNum a && fieldMatch hourNum b && fieldMatch dayNum c &&
    fieldMatch monthNum d && fieldMatch weekdayNum e
  | _ => false

/-- `SchedulingManager.get_schedule_presets` (`src/lib/scheduling.py`
lines 332-349), as an association list. -/
def getSchedulePresets : List (List Char × List Char) :=
  [("daily_2am".data, "0 2 * * *".data),
   ("daily_3am".data, "0 3 * * *".data),
   ("daily_4am".data, "0 4 * * *".data),
   ("daily_midnight".data, "0 0 * * *".data),
   ("weekly_sunday_2am".data, "0 2 * * 0".data),
   ("weekly_monday_2am".data, "0 2 * * 1".data),
   ("hourly".data, "0 * * * *".data),
   ("every_6_hours".data, "0 */6 * * *".data),
   ("every_12_hours".data, "0 */12 * * *".data)]

/-! Crontab parsing and rewriting, from `SchedulingManager`
(`src/lib/scheduling.py`). -/

/-- One entry of the parsed job list built by
`SchedulingManager._parse_crontab` (the Python job dictionary).  `jtype`
is the dictionary key named `type` in the source. -/
structure CronJob where
  minute : List Char
  hour : List Char
  day : List Char
  month : List Char
  weekday : List Char
  command : List Char
  schedule : List Char
  jtype : List Char
  deriving DecidableEq, Repr

/-- `SchedulingManager._identify_job_type` (lines 105-128): classify a cron
command by substring checks, in source order. -/
def identifyJobType (command : List Char) : List Char :=
  if subIn "backup-nginx".data command || subIn "backup_nginx".data command then
    "backup_nginx".data
  else if subIn "backup-mailcow".data command || subIn "backup_mailcow".data command then
    "backup_mailcow".data
  else if subIn "backup-application".data command || subIn "backup_application".data command then
    "backup_application".data
  else if subIn "cleanup".data command then "cleanup".data
  else if subIn "update".data command then "update".data
  else if subIn "health-check".data command then "health_check".data
  else "unknown".data

/-- The `schedule` dictionary entry rebuilt by `_parse_crontab`:
`f"{parts[0]} {parts[1]} {parts[2]} {parts[3]} {parts[4]}"`. -/
def joinFields (m h d mo w : List Char) : List Char :=
  m ++ (' ' :: (h ++ (' ' :: (d ++ (' ' :: (mo ++ (' ' :: w)))))))

/-- The body of `_parse_crontab`'s per-line loop (lines 75-101): strip the
line, skip empty and comment lines (both comment branches of the source
`continue`), then `line.split(None, 5)` and keep the line as a job only when
it has at least six parts (`pySplitMax 5` yields at most six). -/
def parseLine (rawLine : List Char) : List CronJob :=
  let l := pyStrip rawLine
  if l = [] then []
  else if l.head? = some '#' then []
  else
    match pySplitMax 5 l with
    | [m, h, d, mo, w, cmd] =>
      [⟨m, h, d, mo, w, cmd, joinFields m h d mo w, identifyJobType cmd⟩]
    | _ => []

/-- `SchedulingManager._parse_crontab` over the content's lines. -/
def parseCrontab (lines : List (List Char)) : List CronJob :=
  lines.flatMap parseLine

/-- The serialized cron line written by `_write_crontab`:
`f"{job['minute']} {job['hour']} {job['day']} {job['month']} {job['weekday']} {job['command']}"`. -/
def cronLine (j : CronJob) : List Char :=
  j.minute ++ (' ' :: (j.hour ++ (' ' :: (j.day ++ (' ' :: (j.month ++
    (' ' :: (j.weekday ++ (' ' :: j.command)))))))))

/-- The ownership marker comment `f"# server-manager: {job_type}"`. -/
def markerLine (t : List Char) : List Char := "# server-manager: ".data ++ t

/-- The fixed header written by `_write_crontab` (lines 253-263); the
`Last updated` timestamp is the explicit `now` argument. -/
def headerLines (now : List Char) : List (List Char) :=
  ["# server-manager automated schedules".data,
   "# Generated by SchedulingManager".data,
   "# Last updated: ".data ++ now,
   [],
   "# Environment".data,
   "SHELL=/bin/bash".data,
   "PATH=/usr/local/sbin:/usr/local/bin:/sbin:/bin:/usr/sbin:/usr/bin".data,
   "MAILTO=root".data,
   []]

/-- `SchedulingManager._write_crontab` (lines 241-297): the lines of the
crontab text installed by `crontab <tempfile>`. -/
def writeCrontab (jobs : List CronJob) (now : List Char) : List (List Char) :=
  headerLines now ++ jobs.flatMap (fun j => [markerLine j.jtype, cronLine j, []])

/-- The backup options consulted by `_build_backup_command`. -/
structure BackupOptions where
  verify : Bool
  remote : Bool
  deriving DecidableEq, Repr

/-- `SchedulingManager._build_backup_command` (lines 214-239). -/
def buildBackupCommand (service : List Char) (options : BackupOptions) : List Char :=
  "/opt/server-manager/scripts/automated-backup.sh ".data ++ (service ++
    ((if options.verify then " --verify".data else []) ++
    ((if options.remote then " --remote".data else []) ++
    (" >> /opt/server-manager/logs/backup-".data ++ (service ++ "-cron.log 2>&1".data)))))

/-- `SchedulingManager.schedule_backup` (lines 130-183) acting on the OS
crontab state: validate the schedule (an invalid one raises, is caught, and
returns `False` with nothing written), read and parse the current crontab
(`[]` jobs when none exists), drop jobs of type `backup_{service}`, append
the new job, and install the rewritten table.  The impossible inner match
arm is unreachable because validation forces five fields. -/
def scheduleBackup (state : Option (List (List Char))) (service schedule : List Char)
    (options : BackupOptions) (now : List Char) : Bool × Option (List (List Char)) :=
  if validateCronSchedule schedule then
    match pySplitWs schedule with
    | [m, h, d, mo, w] =>
      let cmd := buildBackupCommand service options
      let kept := (parseCrontab (state.getD [])).filter
        (fun j => decide (j.jtype ≠ "backup_".data ++ service))
      let newJob : CronJob := ⟨m, h, d, mo, w, cmd, schedule, "backup_".data ++ service⟩
      (true, some (writeCrontab (kept ++ [newJob]) now))
    | _ => (false, state)
  else (false, state)

/-- `SchedulingManager.remove_schedule` (lines 299-330): with no crontab
return `True`; otherwise drop jobs of the given type, return `False` (no
write) when nothing was dropped, else install the rewritten table. -/
def removeSchedule (state : Option (List (List Char))) (jobType now : List Char) :
    Bool × Option (List (List Char)) :=
  match state with
  | none => (true, none)
  | some lines =>
    let jobs := parseCrontab lines
    let kept := jobs.filter (fun j => decide (j.jtype ≠ jobType))
    if kept.length = jobs.length then (false, some lines)
    else (true, some (writeCrontab kept now))

/-- `SchedulingManager.disable_all_schedules` (lines 468-489): runs
`crontab -r`, which removes the user's entire crontab whatever it contained;
the exit code is ignored and `True` is returned. -/
def disableAllSchedules (_state : Option (List (List Char))) :
    Bool × Option (List (List Char)) :=
  (true, none)

/-! Backup orchestration, from `BackupManager` (`src/lib/backup.py`). -/

/-- Outcomes of the three environment probes consulted by
`_pre_backup_checks`. -/
structure PreflightEnv where
  diskOk : Bool
  sshOk : Bool
  passphraseSet : Bool
  deriving DecidableEq, Repr

/-- The individual pre-backup checks. -/
inductive CheckName where
  | diskSpace
  | sshConnection
  | passphrase
  deriving DecidableEq, Repr

/-- `BackupManager._pre_backup_checks` (lines 67-100): check disk space, then
the SSH connection, then the passphrase, returning `False` at the first
failure.  The second component records which checks were actually executed,
in order. -/
def preBackupChecks (e : PreflightEnv) : Bool × List CheckName :=
  if !e.diskOk then (false, [CheckName.diskSpace])
  else if !e.sshOk then (false, [CheckName.diskSpace, CheckName.sshConnection])
  else if !e.passphraseSet then
    (false, [CheckName.diskSpace, CheckName.sshConnection, CheckName.passphrase])
  else (true, [CheckName.diskSpace, CheckName.sshConnection, CheckName.passphrase])

/-- Repository-mutating stages attempted by `backup_nginx`. -/
inductive BkEvent where
  | createArchive
  | verifyArchive
  | pruneRepo
  deriving DecidableEq, Repr

/-- Outcome of the `borg prune` subprocess as observed through
`run_command`: clean exit, non-zero exit (raising `CalledProcessError`), or
timeout (raising `TimeoutExpired`). -/
inductive CmdOutcome where
  | ok
  | exitFail
  | timedOut
  deriving DecidableEq, Repr

/-- `BackupManager.prune_old_backups` (lines 196-235): returns `True` on a
clean borg-prune exit; its `except subprocess.CalledProcessError` handler
turns a non-zero exit into `False`; a `TimeoutExpired` re-raised by
`run_command` is NOT caught there and propagates to the caller, modelled as
`Except.error`. -/
def pruneOldBackups (r : CmdOutcome) : Except Unit Bool :=
  match r with
  | CmdOutcome.ok => Except.ok true
  | CmdOutcome.exitFail => Except.ok false
  | CmdOutcome.timedOut => Except.error ()

/-- How a call of `backup_nginx` ends at its interface: a normal return with
a boolean, or an exception escaping the function (`backup_nginx` has no
try/except of its own). -/
inductive BackupResult where
  | returned (success : Bool)
  | raised
  deriving DecidableEq, Repr

/-- Outcomes of the external commands run by `backup_nginx`:
`preBackupChecks` probes, the nginx directory check, `_create_borg_backup`
(a boolean: it catches both `CalledProcessError` and `TimeoutExpired`),
`verify_backup` (a boolean: its caught `CalledProcessError` path), and the
`borg prune` outcome fed to `prune_old_backups`. -/
structure BackupEnv where
  pre : PreflightEnv
  nginxDirExists : Bool
  createOk : Bool
  verifyOk : Bool
  pruneCmd : CmdOutcome
  deriving DecidableEq, Repr

/-- `BackupManager.backup_nginx` (lines 304-355): pre-backup checks, source
directory check, archive creation, optional verification, then pruning.
`self.prune_old_backups(repo)` is called with its returned boolean discarded
(the `Except.ok` payload is never consulted), after which the function
returns `True`; but an exception escaping `prune_old_backups` (a borg-prune
timeout) propagates out of `backup_nginx`, which has no handler. -/
def backupNginx (e : BackupEnv) (verify : Bool) : BackupResult × List BkEvent :=
  if !(preBackupChecks e.pre).1 then (BackupResult.returned false, [])
  else if !e.nginxDirExists then (BackupResult.returned false, [])
  else if !e.createOk then (BackupResult.returned false, [BkEvent.createArchive])
  else if verify && !e.verifyOk then
    (BackupResult.returned false, [BkEvent.createArchive, BkEvent.verifyArchive])
  else
    match pruneOldBackups e.pruneCmd with
    | Except.error _ =>
      (BackupResult.raised,
        [BkEvent.createArchive] ++ (if verify then [BkEvent.verifyArchive] else []) ++
          [BkEvent.pruneRepo])
    | Except.ok _ =>
      (BackupResult.returned true,
        [BkEvent.createArchive] ++ (if verify then [BkEvent.verifyArchive] else []) ++
          [BkEvent.pruneRepo])

/-! Archive listing, from `BackupManager.list_backups` and
`RestoreManager.list_remote_backups`. -/

/-- Observable outcome of `run_command(['borg', 'list', '--short', repo])`:
exit code and captured stdout. -/
structure CmdResult where
  rc : Nat
  out : List Char
  deriving DecidableEq, Repr

/-- The shared stdout parse `stdout.strip().split('\n')` keeping the stripped
nonempty lines, in order. -/
def parseListOutput (out : List Char) : List (List Char) :=
  ((splitOnChar '\n' (pyStrip out)).filter (fun line => decide (line ≠ []))).map pyStrip

/-- `RestoreManager.list_remote_backups` (`src/lib/restore.py` lines 65-101):
`run_command(..., check=True)` raises `CalledProcessError` on a non-zero
exit, which is caught and turned into `[]`; on success the archive names are
the stripped nonempty stdout lines. -/
def listRemoteBackups (r : CmdResult) : List (List Char) :=
  if r.rc = 0 then parseListOutput r.out else []

/-- `BackupManager.list_backups` (`src/lib/backup.py` lines 237-269): the
same structure as `listRemoteBackups` (only the per-entry dictionary shape
differs; both reduce to the list of archive names). -/
def listBackups (r : CmdResult) : List (List Char) :=
  if r.rc = 0 then parseListOutput r.out else []

/-! Restore orchestration, from `RestoreManager.restore_nginx`
(`src/lib/restore.py` lines 291-382). -/

/-- Side-effecting steps attempted by `restore_nginx`, in order. -/
inductive RsEvent where
  | stopService
  | snapshotInstall
  | removeInstall
  | extractArchive (name : List Char) (ok : Bool)
  | moveToTarget
  | startService
  deriving DecidableEq, Repr

/-- Outcomes of the external operations consulted by `restore_nginx`:
the backup listing, the disk-space probe, the existence of the current
install directory, per-archive extraction success, and whether the expected
nginx directory is found inside the extraction. -/
structure RestoreEnv where
  listing : List (List Char)
  diskOk : Bool
  nginxExists : Bool
  extractOk : List Char → Bool
  extractedDirFound : Bool

/-- The archive-resolution fragment of `restore_nginx` (lines 307-318): fail
when the listing is empty, take the first listed name for `"latest"`, and
pass any other requested name through unvalidated. -/
def selectArchive (backupName : List Char) (listing : List (List Char)) :
    Option (List Char) :=
  match listing with
  | [] => none
  | b0 :: _ => some (if backupName = "latest".data then b0 else backupName)

/-- `RestoreManager.restore_nginx` (lines 291-382): resolve the archive,
check disk space, and when a current installation exists stop it, copy it
aside (`_backup_existing_installation`, result only logged) and
`shutil.rmtree` it; only then attempt extraction, and on success move the
extracted tree into place and start the service (the final
`_verify_service_running` check returns `True` on either branch). -/
def restoreNginx (e : RestoreEnv) (backupName : List Char) : Bool × List RsEvent :=
  match selectArchive backupName e.listing with
  | none => (false, [])
  | some selected =>
    if !e.diskOk then (false, [])
    else
      let destroyed :=
        if e.nginxExists then
          [RsEvent.stopService, RsEvent.snapshotInstall, RsEvent.removeInstall]
        else []
      let afterExtract := destroyed ++ [RsEvent.extractArchive selected (e.extractOk selected)]
      if !e.extractOk selected then (false, afterExtract)
      else if !e.extractedDirFound then (false, afterExtract)
      else (true, afterExtract ++ [RsEvent.moveToTarget, RsEvent.startService])

/-- Re-parsing a serialized job keeps its six fields, rebuilds `schedule`
from the five schedule fields, and recomputes the type from the command. -/
def reparse (j : CronJob) : CronJob :=
  ⟨j.minute, j.hour, j.day, j.month, j.weekday, j.command,
   joinFields j.minute j.hour j.day j.month j.weekday, identifyJobType j.command⟩

/-- The head of a character list is not whitespace (vacuous for `[]`). -/
def headNotSp (l : List Char) : Prop :=
  ∀ c, l.head? = some c → pyIsSpace c = false

/-- The last character of a list is not whitespace (vacuous for `[]`). -/
def lastNotSp (l : List Char) : Prop :=
  ∀ c, l.getLast? = some c → pyIsSpace c = false

/-- A nonempty whitespace-free token. -/
def goodTok (l : List Char) : Prop :=
  l ≠ [] ∧ ∀ c ∈ l, pyIsSpace c = false

/-- Wellformedness of a job sufficient for its serialized cron line to
survive a parse/write round trip. -/
structure WfJob (j : CronJob) : Prop where
  minuteTok : goodTok j.minute
  hourTok : goodTok j.hour
  dayTok : goodTok j.day
  monthTok : goodTok j.month
  weekdayTok : goodTok j.weekday
  minuteHash : j.minute.head? ≠ some '#'
  cmdNe : j.command ≠ []
  cmdHead : headNotSp j.command
  cmdLast : lastNotSp j.command

/-! Basic facts about the embedded Python string primitives. -/

theorem dropWhile_eq_self_of_head (p : Char → Bool) (l : List Char)
    (h : ∀ c, l.head? = some c → p c = false) : l.dropWhile p = l := by
  cases l with
  | nil => rfl
  | cons c t =>
    apply List.dropWhile_cons_of_neg
    simp [h c rfl]

theorem length_dropWhile_le (p : Char → Bool) (l : List Char) :
    (l.dropWhile p).length ≤ l.length := by
  induction l with
  | nil => simp
  | cons c t ih =>
    by_cases hp : p c
    · rw [List.dropWhile_cons_of_pos hp]
      simp only [List.length_cons]
      omega
    · rw [List.dropWhile_cons_of_neg hp]

theorem exists_append_dropWhile (p : Char → Bool) (l : List Char) :
    ∃ t, t ++ l.dropWhile p = l := by
  induction l with
  | nil => exact ⟨[], rfl⟩
  | cons c rest ih =>
    by_cases hp : p c
    · obtain ⟨t, ht⟩ := ih
      refine ⟨c :: t, ?_⟩
      rw [List.dropWhile_cons_of_pos hp, List.cons_append, ht]
    · exact ⟨[], by rw [List.dropWhile_cons_of_neg hp]; rfl⟩

theorem dropWhile_head_not (p : Char → Bool) (l : List Char) :
    ∀ c, (l.dropWhile p).head? = some c → p c = false := by
  induction l with
  | nil => intro c hc; simp at hc
  | cons a t ih =>
    intro c hc
    by_cases hp : p a
    · rw [List.dropWhile_cons_of_pos hp] at hc
      exact ih c hc
    · rw [List.dropWhile_cons_of_neg hp] at hc
      simp only [List.head?_cons, Option.some.injEq] at hc
      subst hc
      exact Bool.eq_false_iff.mpr hp

theorem append_ne_nil_right (a b : List Char) (hb : b ≠ []) : a ++ b ≠ [] := by
  intro h
  exact hb (List.append_eq_nil.mp h).2

theorem lastNotSp_of_append (pre l2 : List Char) (h : lastNotSp (pre ++ l2)) :
    lastNotSp l2 := by
  intro c hc
  have hne : l2 ≠ [] := by
    intro h0
    rw [h0] at hc
    simp at hc
  apply h
  rw [List.getLast?_append_of_ne_nil pre hne]
  exact hc

theorem getLast?_append_cons_right (a : List Char) (x : Char) (b : List Char)
    (hb : b ≠ []) : (a ++ x :: b).getLast? = b.getLast? := by
  have e : a ++ x :: b = (a ++ [x]) ++ b := by simp
  rw [e, List.getLast?_append_of_ne_nil _ hb]

theorem takeWhile_all_append_not (p : Char → Bool) (tok : List Char) (c : Char)
    (rest : List Char) (htok : ∀ x ∈ tok, p x = true) (hc : p c = false) :
    (tok ++ c :: rest).takeWhile p = tok := by
  induction tok with
  | nil =>
    simp only [List.nil_append]
    exact List.takeWhile_cons_of_neg (by simp [hc])
  | cons a t ih =>
    rw [List.cons_append, List.takeWhile_cons_of_pos (htok a (by simp)),
      ih (fun x hx => htok x (by simp [hx]))]

theorem dropWhile_all_append_not (p : Char → Bool) (tok : List Char) (c : Char)
    (rest : List Char) (htok : ∀ x ∈ tok, p x = true) (hc : p c = false) :
    (tok ++ c :: rest).dropWhile p = c :: rest := by
  induction tok with
  | nil =>
    simp only [List.nil_append]
    exact List.dropWhile_cons_of_neg (by simp [hc])
  | cons a t ih =>
    rw [List.cons_append, List.dropWhile_cons_of_pos (htok a (by simp)),
      ih (fun x hx => htok x (by simp [hx]))]

theorem takeWhile_all (p : Char → Bool) (tok : List Char)
    (htok : ∀ x ∈ tok, p x = true) : tok.takeWhile p = tok := by
  induction tok with
  | nil => rfl
  | cons a t ih =>
    rw [List.takeWhile_cons_of_pos (htok a (by simp)),
      ih (fun x hx => htok x (by simp [hx]))]

theorem dropWhile_all (p : Char → Bool) (tok : List Char)
    (htok : ∀ x ∈ tok, p x = true) : tok.dropWhile p = [] := by
  induction tok with
  | nil => rfl
  | cons a t ih =>
    rw [List.dropWhile_cons_of_pos (htok a (by simp)),
      ih (fun x hx => htok x (by simp [hx]))]

/-! Facts about `pyStrip`. -/

theorem stripTrailing_eq_self (l : List Char) (h : lastNotSp l) :
    stripTrailing l = l := by
  unfold stripTrailing
  rw [dropWhile_eq_self_of_head, List.reverse_reverse]
  intro c hc
  rw [List.head?_reverse] at hc
  exact h c hc

theorem pyStrip_eq_self (l : List Char) (h1 : headNotSp l) (h2 : lastNotSp l) :
    pyStrip l = l := by
  unfold pyStrip
  rw [dropWhile_eq_self_of_head pyIsSpace l h1, stripTrailing_eq_self l h2]

theorem dropWhile_append_singleton_not (p : Char → Bool) (u : List Char) (c : Char)
    (hc : p c = false) :
    (u ++ [c]).dropWhile p ≠ [] ∧ ((u ++ [c]).dropWhile p).getLast? = some c := by
  induction u with
  | nil =>
    rw [List.nil_append, List.dropWhile_cons_of_neg (by simp [hc])]
    exact ⟨by simp, rfl⟩
  | cons a t ih =>
    by_cases hp : p a
    · rw [List.cons_append, List.dropWhile_cons_of_pos hp]
      exact ih
    · rw [List.cons_append, List.dropWhile_cons_of_neg hp]
      refine ⟨by simp, ?_⟩
      have e : a :: (t ++ [c]) = (a :: t) ++ [c] := rfl
      rw [e, List.getLast?_append_of_ne_nil _ (by simp)]
      rfl

theorem exists_stripTrailing_append (m : List Char) :
    ∃ t, stripTrailing m ++ t = m := by
  obtain ⟨t, ht⟩ := exists_append_dropWhile pyIsSpace m.reverse
  refine ⟨t.reverse, ?_⟩
  unfold stripTrailing
  rw [← List.reverse_append, ht, List.reverse_reverse]

theorem stripTrailing_cons_head (c : Char) (t : List Char) (hc : pyIsSpace c = false) :
    (stripTrailing (c :: t)).head? = some c ∧ stripTrailing (c :: t) ≠ [] := by
  unfold stripTrailing
  have h := dropWhile_append_singleton_not pyIsSpace t.reverse c hc
  rw [List.reverse_cons]
  constructor
  · rw [List.head?_reverse]
    exact h.2
  · simp only [ne_eq, List.reverse_eq_nil_iff]
    exact h.1

theorem pyStrip_cons_head (c : Char) (t : List Char) (hc : pyIsSpace c = false) :
    (pyStrip (c :: t)).head? = some c ∧ pyStrip (c :: t) ≠ [] := by
  unfold pyStrip
  rw [List.dropWhile_cons_of_neg (by simp [hc])]
  exact stripTrailing_cons_head c t hc

theorem pyStrip_headNotSp (l : List Char) : headNotSp (pyStrip l) := by
  intro c hc
  have hne : pyStrip l ≠ [] := by
    intro h0
    rw [h0] at hc
    simp at hc
  unfold pyStrip at hc hne
  obtain ⟨t, ht⟩ := exists_stripTrailing_append (l.dropWhile pyIsSpace)
  apply dropWhile_head_not pyIsSpace l
  rw [← ht, List.head?_append_of_ne_nil _ hne]
  exact hc

theorem pyStrip_lastNotSp (l : List Char) : lastNotSp (pyStrip l) := by
  intro c hc
  unfold pyStrip stripTrailing at hc
  rw [show ∀ x : List Char, x.reverse.getLast? = x.head? by
    intro x
    rw [← List.head?_reverse, List.reverse_reverse]] at hc
  exact dropWhile_head_not pyIsSpace _ c hc

/-! Facts about the whitespace splitters. -/

theorem length_drop_drop_lt (l : List Char) (h : l.dropWhile pyIsSpace ≠ []) :
    ((l.dropWhile pyIsSpace).dropWhile notSp).length < l.length := by
  obtain ⟨c, t, hct⟩ := List.exists_cons_of_ne_nil h
  have hc : pyIsSpace c = false := by
    apply dropWhile_head_not pyIsSpace l
    rw [hct]
    rfl
  have hlen : (l.dropWhile pyIsSpace).length ≤ l.length := length_dropWhile_le pyIsSpace l
  rw [hct] at hlen ⊢
  rw [List.dropWhile_cons_of_pos (by simp [notSp, hc])]
  have h2 : (t.dropWhile notSp).length ≤ t.length := length_dropWhile_le notSp t
  simp only [List.length_cons] at hlen
  omega

theorem pySplitMaxAux_fuel (f1 f2 maxsplit : Nat) (l : List Char)
    (h1 : l.length < f1) (h2 : l.length < f2) :
    pySplitMaxAux f1 maxsplit l = pySplitMaxAux f2 maxsplit l := by
  induction f1 generalizing f2 maxsplit l with
  | zero => omega
  | succ f1 ih =>
    cases f2 with
    | zero => omega
    | succ f2 =>
      simp only [pySplitMaxAux]
      by_cases hnil : l.dropWhile pyIsSpace = []
      · simp [hnil]
      · simp only [hnil, if_false]
        by_cases hm : maxsplit = 0
        · simp [hm]
        · simp only [hm, if_false]
          congr 1
          have hlt := length_drop_drop_lt l hnil
          exact ih f2 (maxsplit - 1) _ (by omega) (by omega)

theorem pySplitMax_eq (maxsplit : Nat) (l : List Char) :
    pySplitMax maxsplit l =
      if l.dropWhile pyIsSpace = [] then []
      else if maxsplit = 0 then [l.dropWhile pyIsSpace]
      else (l.dropWhile pyIsSpace).takeWhile notSp ::
        pySplitMax (maxsplit - 1) ((l.dropWhile pyIsSpace).dropWhile notSp) := by
  unfold pySplitMax
  conv_lhs => rw [pySplitMaxAux]
  by_cases hnil : l.dropWhile pyIsSpace = []
  · simp [hnil]
  · simp only [hnil, if_false]
    by_cases hm : maxsplit = 0
    · simp [hm]
    · simp only [hm, if_false]
      congr 1
      have hlt := length_drop_drop_lt l hnil
      exact pySplitMaxAux_fuel _ _ _ _ (by omega) (by omega)

theorem pySplitWsAux_fuel (f1 f2 : Nat) (l : List Char)
    (h1 : l.length < f1) (h2 : l.length < f2) :
    pySplitWsAux f1 l = pySplitWsAux f2 l := by
  induction f1 generalizing f2 l with
  | zero => omega
  | succ f1 ih =>
    cases f2 with
    | zero => omega
    | succ f2 =>
      simp only [pySplitWsAux]
      by_cases hnil : l.dropWhile pyIsSpace = []
      · simp [hnil]
      · simp only [hnil, if_false]
        congr 1
        have hlt := length_drop_drop_lt l hnil
        exact ih f2 _ (by omega) (by omega)

theorem pySplitWs_eq (l : List Char) :
    pySplitWs l =
      if l.dropWhile pyIsSpace = [] then []
      else (l.dropWhile pyIsSpace).takeWhile notSp ::
        pySplitWs ((l.dropWhile pyIsSpace).dropWhile notSp) := by
  unfold pySplitWs
  conv_lhs => rw [pySplitWsAux]
  by_cases hnil : l.dropWhile pyIsSpace = []
  · simp [hnil]
  · simp only [hnil, if_false]
    congr 1
    have hlt := length_drop_drop_lt l hnil
    exact pySplitWsAux_fuel _ _ _ (by omega) (by omega)

theorem goodTok_all_notSp (tok : List Char) (h : goodTok tok) :
    ∀ x ∈ tok, notSp x = true := by
  intro x hx
  simp [notSp, h.2 x hx]

theorem goodTok_dropWhile_sp (tok rest : List Char) (h : goodTok tok) :
    (tok ++ rest).dropWhile pyIsSpace = tok ++ rest := by
  apply dropWhile_eq_self_of_head
  intro c hc
  obtain ⟨a, t, hat⟩ := List.exists_cons_of_ne_nil h.1
  rw [hat, List.cons_append, List.head?_cons, Option.some.injEq] at hc
  rw [← hc]
  exact h.2 a (by rw [hat]; simp)

theorem pySplitMax_space_cons (maxsplit : Nat) (c : Char) (rest : List Char)
    (hc : pyIsSpace c = true) :
    pySplitMax maxsplit (c :: rest) = pySplitMax maxsplit rest := by
  rw [pySplitMax_eq maxsplit (c :: rest), pySplitMax_eq maxsplit rest,
    List.dropWhile_cons_of_pos hc]

theorem pySplitMax_token_cons (maxsplit : Nat) (tok rest : List Char)
    (h : goodTok tok) :
    pySplitMax (maxsplit + 1) (tok ++ ' ' :: rest) = tok :: pySplitMax maxsplit rest := by
  rw [pySplitMax_eq, goodTok_dropWhile_sp tok (' ' :: rest) h]
  rw [if_neg (append_ne_nil_right tok (' ' :: rest) (by simp))]
  rw [if_neg (by omega : ¬ maxsplit + 1 = 0)]
  rw [takeWhile_all_append_not notSp tok ' ' rest (goodTok_all_notSp tok h) (by decide)]
  rw [dropWhile_all_append_not notSp tok ' ' rest (goodTok_all_notSp tok h) (by decide)]
  rw [Nat.add_sub_cancel]
  rw [pySplitMax_space_cons maxsplit ' ' rest (by decide)]

theorem pySplitMax_zero_tok (l : List Char) (hne : l ≠ []) (hh : headNotSp l) :
    pySplitMax 0 l = [l] := by
  rw [pySplitMax_eq, dropWhile_eq_self_of_head pyIsSpace l hh]
  simp [hne]

theorem pySplitWs_space_cons (c : Char) (rest : List Char) (hc : pyIsSpace c = true) :
    pySplitWs (c :: rest) = pySplitWs rest := by
  rw [pySplitWs_eq (c :: rest), pySplitWs_eq rest, List.dropWhile_cons_of_pos hc]

theorem pySplitWs_token_cons (tok rest : List Char) (h : goodTok tok) :
    pySplitWs (tok ++ ' ' :: rest) = tok :: pySplitWs rest := by
  rw [pySplitWs_eq, goodTok_dropWhile_sp tok (' ' :: rest) h]
  rw [if_neg (append_ne_nil_right tok (' ' :: rest) (by simp))]
  rw [takeWhile_all_append_not notSp tok ' ' rest (goodTok_all_notSp tok h) (by decide)]
  rw [dropWhile_all_append_not notSp tok ' ' rest (goodTok_all_notSp tok h) (by decide)]
  rw [pySplitWs_space_cons ' ' rest (by decide)]

theorem pySplitWs_single_token (tok : List Char) (h : goodTok tok) :
    pySplitWs tok = [tok] := by
  rw [pySplitWs_eq]
  have hd : tok.dropWhile pyIsSpace = tok := by
    have := goodTok_dropWhile_sp tok [] h
    simpa using this
  rw [hd, if_neg h.1, takeWhile_all notSp tok (goodTok_all_notSp tok h),
    dropWhile_all notSp tok (goodTok_all_notSp tok h)]
  rfl

theorem pySplitMax_cons_inv (maxsplit : Nat) (l c : List Char)
    (cs : List (List Char)) (h : pySplitMax (maxsplit + 1) l = c :: cs) :
    goodTok c ∧ c.head? = (l.dropWhile pyIsSpace).head? ∧
      ∃ l2, (∃ pre, pre ++ l2 = l) ∧ cs = pySplitMax maxsplit l2 := by
  rw [pySplitMax_eq] at h
  by_cases hnil : l.dropWhile pyIsSpace = []
  · simp [hnil] at h
  · simp only [hnil, if_false, Nat.succ_ne_zero, Nat.add_sub_cancel] at h
    injection h with hc hcs
    obtain ⟨a, t, hat⟩ := List.exists_cons_of_ne_nil hnil
    have ha : pyIsSpace a = false := by
      apply dropWhile_head_not pyIsSpace l
      rw [hat]
      rfl
    have hans : notSp a = true := by simp [notSp, ha]
    refine ⟨⟨?_, ?_⟩, ?_, ?_⟩
    · rw [← hc, hat, List.takeWhile_cons_of_pos hans]
      simp
    · intro x hx
      rw [← hc] at hx
      have := List.mem_takeWhile_imp hx
      simpa [notSp] using this
    · rw [← hc, hat, List.takeWhile_cons_of_pos hans]
      rfl
    · refine ⟨(l.dropWhile pyIsSpace).dropWhile notSp, ?_, hcs.symm⟩
      obtain ⟨p1, hp1⟩ := exists_append_dropWhile pyIsSpace l
      obtain ⟨p2, hp2⟩ := exists_append_dropWhile notSp (l.dropWhile pyIsSpace)
      exact ⟨p1 ++ p2, by rw [List.append_assoc, hp2, hp1]⟩

theorem pySplitMax_zero_inv (l c : List Char) (cs : List (List Char))
    (h : pySplitMax 0 l = c :: cs) :
    cs = [] ∧ c ≠ [] ∧ headNotSp c ∧ (lastNotSp l → lastNotSp c) := by
  rw [pySplitMax_eq] at h
  by_cases hnil : l.dropWhile pyIsSpace = []
  · simp [hnil] at h
  · simp only [hnil, if_false, if_pos rfl] at h
    injection h with hc hcs
    refine ⟨hcs.symm, ?_, ?_, ?_⟩
    · rw [← hc]; exact hnil
    · intro x hx
      rw [← hc] at hx
      exact dropWhile_head_not pyIsSpace l x hx
    · intro hlast
      rw [← hc]
      obtain ⟨pre, hpre⟩ := exists_append_dropWhile pyIsSpace l
      apply lastNotSp_of_append pre
      rw [hpre]
      exact hlast

theorem pySplitWs_cons_inv (l c : List Char) (cs : List (List Char))
    (h : pySplitWs l = c :: cs) :
    goodTok c ∧ ∃ l2, cs = pySplitWs l2 := by
  rw [pySplitWs_eq] at h
  by_cases hnil : l.dropWhile pyIsSpace = []
  · simp [hnil] at h
  · simp only [hnil, if_false] at h
    injection h with hc hcs
    obtain ⟨a, t, hat⟩ := List.exists_cons_of_ne_nil hnil
    have ha : pyIsSpace a = false := by
      apply dropWhile_head_not pyIsSpace l
      rw [hat]
      rfl
    have hans : notSp a = true := by simp [notSp, ha]
    refine ⟨⟨?_, ?_⟩, ⟨_, hcs.symm⟩⟩
    · rw [← hc, hat, List.takeWhile_cons_of_pos hans]
      simp
    · intro x hx
      rw [← hc] at hx
      have := List.mem_takeWhile_imp hx
      simpa [notSp] using this

/-! Round-trip facts: serialized crontab lines re-parse to the same jobs. -/

theorem cronLine_head? (j : CronJob) (h : j.minute ≠ []) :
    (cronLine j).head? = j.minute.head? := by
  unfold cronLine
  exact List.head?_append_of_ne_nil _ h

theorem cronLine_getLast? (j : CronJob) (h : j.command ≠ []) :
    (cronLine j).getLast? = j.command.getLast? := by
  unfold cronLine
  rw [getLast?_append_cons_right _ _ _ (append_ne_nil_right _ _ (List.cons_ne_nil _ _)),
    getLast?_append_cons_right _ _ _ (append_ne_nil_right _ _ (List.cons_ne_nil _ _)),
    getLast?_append_cons_right _ _ _ (append_ne_nil_right _ _ (List.cons_ne_nil _ _)),
    getLast?_append_cons_right _ _ _ (append_ne_nil_right _ _ (List.cons_ne_nil _ _)),
    getLast?_append_cons_right _ _ _ h]

theorem parseLine_cronLine (j : CronJob) (hw : WfJob j) :
    parseLine (cronLine j) = [reparse j] := by
  have hstrip : pyStrip (cronLine j) = cronLine j := by
    apply pyStrip_eq_self
    · intro c hc
      rw [cronLine_head? j hw.minuteTok.1] at hc
      obtain ⟨a, t, hat⟩ := List.exists_cons_of_ne_nil hw.minuteTok.1
      rw [hat] at hc
      simp only [List.head?_cons, Option.some.injEq] at hc
      rw [← hc]
      exact hw.minuteTok.2 a (by rw [hat]; simp)
    · intro c hc
      rw [cronLine_getLast? j hw.cmdNe] at hc
      exact hw.cmdLast c hc
  have hne : cronLine j ≠ [] := by
    unfold cronLine
    exact append_ne_nil_right _ _ (List.cons_ne_nil _ _)
  have hhash : ¬ (cronLine j).head? = some '#' := by
    rw [cronLine_head? j hw.minuteTok.1]
    exact hw.minuteHash
  have hsplit : pySplitMax 5 (cronLine j) =
      [j.minute, j.hour, j.day, j.month, j.weekday, j.command] := by
    unfold cronLine
    rw [pySplitMax_token_cons 4 _ _ hw.minuteTok,
      pySplitMax_token_cons 3 _ _ hw.hourTok,
      pySplitMax_token_cons 2 _ _ hw.dayTok,
      pySplitMax_token_cons 1 _ _ hw.monthTok,
      pySplitMax_token_cons 0 _ _ hw.weekdayTok,
      pySplitMax_zero_tok _ hw.cmdNe hw.cmdHead]
  simp only [parseLine]
  rw [hstrip, if_neg hne, if_neg hhash, hsplit]
  rfl

theorem parseLine_hash_cons (rest : List Char) : parseLine ('#' :: rest) = [] := by
  have h := pyStrip_cons_head '#' rest (by decide)
  simp only [parseLine]
  rw [if_neg h.2, if_pos h.1]

theorem parseLine_marker (t : List Char) : parseLine (markerLine t) = [] := by
  have e : markerLine t = '#' :: (" server-manager: ".data ++ t) := rfl
  rw [e]
  exact parseLine_hash_cons _

theorem parseCrontab_header (now : List Char) :
    parseCrontab (headerLines now) = [] := by
  have h3 : parseLine ("# Last updated: ".data ++ now) = [] := by
    have e : "# Last updated: ".data ++ now = '#' :: (" Last updated: ".data ++ now) := rfl
    rw [e]
    exact parseLine_hash_cons _
  have h1 : parseLine "# server-manager automated schedules".data = [] := by decide
  have h2 : parseLine "# Generated by SchedulingManager".data = [] := by decide
  have h5 : parseLine "# Environment".data = [] := by decide
  have h6 : parseLine "SHELL=/bin/bash".data = [] := by decide
  have h7 : parseLine
    "PATH=/usr/local/sbin:/usr/local/bin:/sbin:/bin:/usr/sbin:/usr/bin".data = [] := by decide
  have h8 : parseLine "MAILTO=root".data = [] := by decide
  have h0 : parseLine ([] : List Char) = [] := by decide
  simp only [parseCrontab, headerLines, List.flatMap_cons, List.flatMap_nil,
    h1, h2, h3, h5, h6, h7, h8, h0, List.nil_append, List.append_nil]

theorem parseCrontab_jobLines (jobs : List CronJob)
    (h : ∀ j ∈ jobs, WfJob j) :
    (jobs.flatMap fun j => [markerLine j.jtype, cronLine j, []]).flatMap parseLine
      = jobs.map reparse := by
  induction jobs with
  | nil => rfl
  | cons j t ih =>
    rw [List.flatMap_cons, List.flatMap_append, ih (fun x hx => h x (by simp [hx]))]
    have h0 : parseLine ([] : List Char) = [] := by decide
    simp only [List.flatMap_cons, List.flatMap_nil, List.map_cons]
    rw [parseLine_marker, parseLine_cronLine j (h j (by simp)), h0]
    simp

theorem parseCrontab_writeCrontab (jobs : List CronJob) (now : List Char)
    (h : ∀ j ∈ jobs, WfJob j) :
    parseCrontab (writeCrontab jobs now) = jobs.map reparse := by
  unfold writeCrontab
  have hh := parseCrontab_header now
  unfold parseCrontab at hh ⊢
  rw [List.flatMap_append, hh, List.nil_append]
  exact parseCrontab_jobLines jobs h

/-! Wellformedness of parsed jobs. -/

theorem parseLine_wf (rawLine : List Char) (j : CronJob) (h : j ∈ parseLine rawLine) :
    WfJob j ∧ j.jtype = identifyJobType j.command := by
  simp only [parseLine] at h
  by_cases h0 : pyStrip rawLine = []
  · rw [if_pos h0] at h
    simp at h
  · rw [if_neg h0] at h
    by_cases h1 : (pyStrip rawLine).head? = some '#'
    · rw [if_pos h1] at h
      simp at h
    · rw [if_neg h1] at h
      split at h
      · rename_i m hh d mo w cmd heq
        simp only [List.mem_singleton] at h
        subst h
        obtain ⟨gm, gmhead, l1, ⟨pre1, hpre1⟩, hcs1⟩ := pySplitMax_cons_inv 4 _ _ _ heq
        obtain ⟨gh, _, l2, ⟨pre2, hpre2⟩, hcs2⟩ := pySplitMax_cons_inv 3 _ _ _ hcs1.symm
        obtain ⟨gd, _, l3, ⟨pre3, hpre3⟩, hcs3⟩ := pySplitMax_cons_inv 2 _ _ _ hcs2.symm
        obtain ⟨gmo, _, l4, ⟨pre4, hpre4⟩, hcs4⟩ := pySplitMax_cons_inv 1 _ _ _ hcs3.symm
        obtain ⟨gw, _, l5, ⟨pre5, hpre5⟩, hcs5⟩ := pySplitMax_cons_inv 0 _ _ _ hcs4.symm
        obtain ⟨-, hcmdne, hcmdhead, hcmdlast⟩ := pySplitMax_zero_inv l5 cmd [] hcs5.symm
        have hlast5 : lastNotSp l5 := by
          have hl0 : lastNotSp (pyStrip rawLine) := pyStrip_lastNotSp rawLine
          rw [← hpre1] at hl0
          have hl1 := lastNotSp_of_append pre1 l1 hl0
          rw [← hpre2] at hl1
          have hl2 := lastNotSp_of_append pre2 l2 hl1
          rw [← hpre3] at hl2
          have hl3 := lastNotSp_of_append pre3 l3 hl2
          rw [← hpre4] at hl3
          have hl4 := lastNotSp_of_append pre4 l4 hl3
          rw [← hpre5] at hl4
          exact lastNotSp_of_append pre5 l5 hl4
        have hmhash : m.head? ≠ some '#' := by
          rw [gmhead, dropWhile_eq_self_of_head pyIsSpace _ (pyStrip_headNotSp rawLine)]
          exact h1
        exact ⟨⟨gm, gh, gd, gmo, gw, hmhash, hcmdne, hcmdhead, hcmdlast hlast5⟩, rfl⟩
      · simp at h

theorem parseCrontab_wf (lines : List (List Char)) (j : CronJob)
    (h : j ∈ parseCrontab lines) : WfJob j ∧ j.jtype = identifyJobType j.command := by
  unfold parseCrontab at h
  rw [List.mem_flatMap] at h
  obtain ⟨line, _, hj⟩ := h
  exact parseLine_wf line j hj

theorem reparse_wf (j : CronJob) (h : WfJob j) : WfJob (reparse j) :=
  ⟨h.minuteTok, h.hourTok, h.dayTok, h.monthTok, h.weekdayTok, h.minuteHash,
   h.cmdNe, h.cmdHead, h.cmdLast⟩

/-! Facts about the cron field grammar needed for new jobs. -/

theorem splitOnChar_first (sep : Char) (l : List Char) :
    ∃ ps, splitOnChar sep l = (l.takeWhile fun x => decide (x ≠ sep)) :: ps := by
  induction l with
  | nil => exact ⟨[], rfl⟩
  | cons c rest ih =>
    obtain ⟨ps, hps⟩ := ih
    by_cases hc : c = sep
    · subst hc
      refine ⟨splitOnChar c rest, ?_⟩
      simp [splitOnChar, List.takeWhile_cons]
    · refine ⟨ps, ?_⟩
      simp only [splitOnChar, if_neg hc, hps, List.takeWhile_cons]
      simp [hc]

theorem commaList_first_num (num : List Char → Bool) (body : List Char)
    (h : commaList num body = true) :
    num (body.takeWhile fun x => decide (x ≠ ',')) = true := by
  unfold commaList at h
  obtain ⟨ps, hps⟩ := splitOnChar_first ',' body
  rw [hps, List.all_cons, Bool.and_eq_true] at h
  exact h.1

theorem takeWhile_head_cases (p : Char → Bool) (l : List Char) (c : Char) (t : List Char)
    (h : l.takeWhile p = c :: t) : l.head? = some c := by
  cases l with
  | nil => simp at h
  | cons a rest =>
    by_cases hp : p a
    · rw [List.takeWhile_cons_of_pos hp] at h
      injection h with h1 _
      simp [h1]
    · rw [List.takeWhile_cons_of_neg hp] at h
      simp at h

theorem head?_of_takeWhile_head? (p : Char → Bool) (l : List Char) (c : Char)
    (h : (l.takeWhile p).head? = some c) : l.head? = some c := by
  cases l with
  | nil => simp at h
  | cons a rest =>
    by_cases hp : p a
    · rw [List.takeWhile_cons_of_pos hp] at h
      exact h
    · rw [List.takeWhile_cons_of_neg hp] at h
      simp at h

theorem minuteNum_head_digit (l : List Char) (h : minuteNum l = true) :
    ∃ c t, l = c :: t ∧ isDigitCh c = true := by
  rcases l with _ | ⟨c1, _ | ⟨c2, _ | ⟨c3, t⟩⟩⟩
  · simp [minuteNum] at h
  · exact ⟨c1, [], rfl, h⟩
  · refine ⟨c1, [c2], rfl, ?_⟩
    unfold minuteNum at h
    rw [Bool.and_eq_true] at h
    have h1 := h.1
    have e0 : '0'.toNat = 48 := by decide
    have e5 : '5'.toNat = 53 := by decide
    have e9 : '9'.toNat = 57 := by decide
    simp only [chIn, isDigitCh, Bool.and_eq_true, decide_eq_true_eq, e0, e5, e9] at h1 ⊢
    omega
  · simp [minuteNum] at h

theorem head_not_hash_of_commaList (a : List Char)
    (hcl : commaList minuteNum (a.takeWhile fun x => decide (x ≠ '/')) = true) :
    a.head? ≠ some '#' := by
  have hn := commaList_first_num minuteNum _ hcl
  obtain ⟨c, t, hct, hd⟩ := minuteNum_head_digit _ hn
  have h1 := takeWhile_head_cases _ _ _ _ hct
  have h2 := head?_of_takeWhile_head? _ _ _ h1
  rw [h2]
  intro heq
  rw [Option.some.injEq] at heq
  subst heq
  simp [isDigitCh, chIn] at hd

theorem fieldMatch_minute_head (a : List Char) (h : fieldMatch minuteNum a = true) :
    a.head? ≠ some '#' := by
  unfold fieldMatch at h
  by_cases hstar : a = ['*']
  · subst hstar
    decide
  · rw [if_neg hstar] at h
    obtain ⟨ps, hps⟩ := splitOnChar_first '/' a
    rcases ps with _ | ⟨p2, ps2⟩
    · rw [hps] at h
      exact head_not_hash_of_commaList a h
    · rcases ps2 with _ | ⟨p3, ps3⟩
      · rw [hps] at h
        rw [show (match ((a.takeWhile fun x => decide (x ≠ '/')) :: [p2] :
              List (List Char)) with
            | [body] => commaList minuteNum body
            | [body, step] => commaList minuteNum body && minuteNum step
            | _ => false) =
            (commaList minuteNum (a.takeWhile fun x => decide (x ≠ '/')) &&
              minuteNum p2) from rfl] at h
        rw [Bool.and_eq_true] at h
        exact head_not_hash_of_commaList a h.1
      · rw [hps] at h
        simp at h

theorem validate_fields (s : List Char) (h : validateCronSchedule s = true) :
    ∃ a b c d e, pySplitWs s = [a, b, c, d, e] ∧
      fieldMatch minuteNum a = true ∧ fieldMatch hourNum b = true ∧
      fieldMatch dayNum c = true ∧ fieldMatch monthNum d = true ∧
      fieldMatch weekdayNum e = true := by
  unfold validateCronSchedule at h
  split at h
  · rename_i a b c d e heq
    simp only [Bool.and_eq_true] at h
    exact ⟨a, b, c, d, e, heq, h.1.1.1.1, h.1.1.1.2, h.1.1.2, h.1.2, h.2⟩
  · exact absurd h (by simp)

theorem validate_goodToks (s a b c d e : List Char)
    (h : pySplitWs s = [a, b, c, d, e]) :
    goodTok a ∧ goodTok b ∧ goodTok c ∧ goodTok d ∧ goodTok e := by
  obtain ⟨ga, l1, h1⟩ := pySplitWs_cons_inv s a _ h
  obtain ⟨gb, l2, h2⟩ := pySplitWs_cons_inv l1 b _ h1.symm
  obtain ⟨gc, l3, h3⟩ := pySplitWs_cons_inv l2 c _ h2.symm
  obtain ⟨gd, l4, h4⟩ := pySplitWs_cons_inv l3 d _ h3.symm
  obtain ⟨ge, l5, h5⟩ := pySplitWs_cons_inv l4 e _ h4.symm
  exact ⟨ga, gb, gc, gd, ge⟩

/-! Facts about the generated backup command. -/

theorem buildBackupCommand_head? (service : List Char) (options : BackupOptions) :
    (buildBackupCommand service options).head? = some '/' := by
  unfold buildBackupCommand
  rw [List.head?_append_of_ne_nil _ (by decide)]
  rfl

theorem buildBackupCommand_ne_nil (service : List Char) (options : BackupOptions) :
    buildBackupCommand service options ≠ [] := by
  intro h
  have := buildBackupCommand_head? service options
  rw [h] at this
  simp at this

theorem buildBackupCommand_headNotSp (service : List Char) (options : BackupOptions) :
    headNotSp (buildBackupCommand service options) := by
  intro c hc
  rw [buildBackupCommand_head?, Option.some.injEq] at hc
  rw [← hc]
  decide

theorem buildBackupCommand_getLast? (service : List Char) (options : BackupOptions) :
    (buildBackupCommand service options).getLast? = some '1' := by
  have n1 : ("-cron.log 2>&1".data : List Char) ≠ [] := by decide
  have n2 : service ++ "-cron.log 2>&1".data ≠ [] := append_ne_nil_right _ _ n1
  have n3 : " >> /opt/server-manager/logs/backup-".data ++
      (service ++ "-cron.log 2>&1".data) ≠ [] := append_ne_nil_right _ _ n2
  have n4 : (if options.remote then " --remote".data else []) ++
      (" >> /opt/server-manager/logs/backup-".data ++
        (service ++ "-cron.log 2>&1".data)) ≠ [] := append_ne_nil_right _ _ n3
  have n5 : (if options.verify then " --verify".data else []) ++
      ((if options.remote then " --remote".data else []) ++
        (" >> /opt/server-manager/logs/backup-".data ++
          (service ++ "-cron.log 2>&1".data))) ≠ [] := append_ne_nil_right _ _ n4
  have n6 : service ++
      ((if options.verify then " --verify".data else []) ++
        ((if options.remote then " --remote".data else []) ++
          (" >> /opt/server-manager/logs/backup-".data ++
            (service ++ "-cron.log 2>&1".data)))) ≠ [] := append_ne_nil_right _ _ n5
  unfold buildBackupCommand
  rw [List.getLast?_append_of_ne_nil _ n6, List.getLast?_append_of_ne_nil _ n5,
    List.getLast?_append_of_ne_nil _ n4, List.getLast?_append_of_ne_nil _ n3,
    List.getLast?_append_of_ne_nil _ n2, List.getLast?_append_of_ne_nil _ n1]
  decide

theorem buildBackupCommand_lastNotSp (service : List Char) (options : BackupOptions) :
    lastNotSp (buildBackupCommand service options) := by
  intro c hc
  rw [buildBackupCommand_getLast?, Option.some.injEq] at hc
  rw [← hc]
  decide

theorem scheduleJob_wf (service : List Char) (options : BackupOptions)
    (m h d mo w : List Char) (gm : goodTok m) (gh : goodTok h) (gd : goodTok d)
    (gmo : goodTok mo) (gw : goodTok w) (hm : fieldMatch minuteNum m = true)
    (s t : List Char) :
    WfJob ⟨m, h, d, mo, w, buildBackupCommand service options, s, t⟩ :=
  ⟨gm, gh, gd, gmo, gw, fieldMatch_minute_head m hm,
   buildBackupCommand_ne_nil service options, buildBackupCommand_headNotSp service options,
   buildBackupCommand_lastNotSp service options⟩

theorem identifyJobType_build (service : List Char) (options : BackupOptions)
    (hs : service = "nginx".data ∨ service = "mailcow".data ∨
      service = "application".data) :
    identifyJobType (buildBackupCommand service options) = "backup_".data ++ service := by
  obtain ⟨v, r⟩ := options
  rcases hs with rfl | rfl | rfl <;> cases v <;> cases r <;> decide

/-! The explicit result of a successful `scheduleBackup`. -/

theorem scheduleBackup_some (state : Option (List (List Char))) (service s : List Char)
    (options : BackupOptions) (now : List Char) (hv : validateCronSchedule s = true)
    (m h d mo w : List Char) (hsplit : pySplitWs s = [m, h, d, mo, w]) :
    scheduleBackup state service s options now =
      (true, some (writeCrontab
        ((parseCrontab (state.getD [])).filter
          (fun j => decide (j.jtype ≠ "backup_".data ++ service)) ++
         [⟨m, h, d, mo, w, buildBackupCommand service options, s,
           "backup_".data ++ service⟩]) now)) := by
  unfold scheduleBackup
  rw [if_pos hv, hsplit]

theorem filter_ne_map_reparse (jobs : List CronJob) (T : List Char)
    (h : ∀ j ∈ jobs, j.jtype = identifyJobType j.command ∧ j.jtype ≠ T) :
    (jobs.map reparse).filter (fun j => decide (j.jtype ≠ T)) = jobs.map reparse := by
  apply List.filter_eq_self.mpr
  intro j hj
  rw [List.mem_map] at hj
  obtain ⟨x, hx, hxe⟩ := hj
  apply decide_eq_true
  rw [← hxe]
  show identifyJobType x.command ≠ T
  rw [← (h x hx).1]
  exact (h x hx).2

theorem filter_eq_map_reparse_nil (jobs : List CronJob) (T : List Char)
    (h : ∀ j ∈ jobs, j.jtype = identifyJobType j.command ∧ j.jtype ≠ T) :
    (jobs.map reparse).filter (fun j => decide (j.jtype = T)) = [] := by
  rw [List.filter_eq_nil_iff]
  intro j hj
  rw [List.mem_map] at hj
  obtain ⟨x, hx, hxe⟩ := hj
  simp only [decide_eq_true_eq]
  rw [← hxe]
  show ¬ identifyJobType x.command = T
  rw [← (h x hx).1]
  exact (h x hx).2

/-- Claim C4: for each supported backup service, scheduling it twice with two
valid cron expressions succeeds both times and leaves exactly one job of type
`backup_{service}` in the re-parsed crontab; that job carries the second
expression's five schedule fields and the second run's command. -/
theorem c4_schedule_twice_one_entry_per_type
    (state : Option (List (List Char))) (service s1 s2 : List Char)
    (o1 o2 : BackupOptions) (now1 now2 : List Char)
    (hs : service = "nginx".data ∨ service = "mailcow".data ∨
      service = "application".data)
    (hv1 : validateCronSchedule s1 = true) (hv2 : validateCronSchedule s2 = true) :
    (scheduleBackup state service s1 o1 now1).1 = true ∧
    (scheduleBackup (scheduleBackup state service s1 o1 now1).2 service s2 o2 now2).1
      = true ∧
    ∃ lines2 m h d mo w,
      (scheduleBackup (scheduleBackup state service s1 o1 now1).2 service s2 o2 now2).2
        = some lines2 ∧
      pySplitWs s2 = [m, h, d, mo, w] ∧
      (parseCrontab lines2).filter
          (fun j => decide (j.jtype = "backup_".data ++ service))
        = [⟨m, h, d, mo, w, buildBackupCommand service o2, joinFields m h d mo w,
            "backup_".data ++ service⟩] := by
  obtain ⟨m1, hh1, d1, mo1, w1, hsp1, hfm1, -, -, -, -⟩ := validate_fields s1 hv1
  obtain ⟨m2, hh2, d2, mo2, w2, hsp2, hfm2, -, -, -, -⟩ := validate_fields s2 hv2
  obtain ⟨g1a, g1b, g1c, g1d, g1e⟩ := validate_goodToks s1 _ _ _ _ _ hsp1
  obtain ⟨g2a, g2b, g2c, g2d, g2e⟩ := validate_goodToks s2 _ _ _ _ _ hsp2
  have hkept1 : ∀ j ∈ (parseCrontab (state.getD [])).filter
      (fun j => decide (j.jtype ≠ "backup_".data ++ service)),
      WfJob j ∧ j.jtype = identifyJobType j.command ∧
        j.jtype ≠ "backup_".data ++ service := by
    intro j hj
    rw [List.mem_filter] at hj
    have hwf := parseCrontab_wf _ j hj.1
    exact ⟨hwf.1, hwf.2, of_decide_eq_true hj.2⟩
  have est1 := scheduleBackup_some state service s1 o1 now1 hv1 _ _ _ _ _ hsp1
  have hwf1 : ∀ j ∈ (parseCrontab (state.getD [])).filter
      (fun j => decide (j.jtype ≠ "backup_".data ++ service)) ++
      [⟨m1, hh1, d1, mo1, w1, buildBackupCommand service o1, s1,
        "backup_".data ++ service⟩], WfJob j := by
    intro j hj
    rw [List.mem_append] at hj
    rcases hj with hj | hj
    · exact (hkept1 j hj).1
    · rw [List.mem_singleton] at hj
      rw [hj]
      exact scheduleJob_wf service o1 _ _ _ _ _ g1a g1b g1c g1d g1e hfm1 _ _
  have eparse1 := parseCrontab_writeCrontab _ now1 hwf1
  have efilter1 : (parseCrontab (writeCrontab
        ((parseCrontab (state.getD [])).filter
          (fun j => decide (j.jtype ≠ "backup_".data ++ service)) ++
         [⟨m1, hh1, d1, mo1, w1, buildBackupCommand service o1, s1,
           "backup_".data ++ service⟩]) now1)).filter
        (fun j => decide (j.jtype ≠ "backup_".data ++ service)) =
      ((parseCrontab (state.getD [])).filter
        (fun j => decide (j.jtype ≠ "backup_".data ++ service))).map reparse := by
    rw [eparse1, List.map_append, List.filter_append]
    rw [filter_ne_map_reparse _ _ (fun j hj => ⟨(hkept1 j hj).2.1, (hkept1 j hj).2.2⟩)]
    have hJ1t : identifyJobType (buildBackupCommand service o1) =
        "backup_".data ++ service := identifyJobType_build service o1 hs
    simp [reparse, hJ1t]
  have est2 := scheduleBackup_some
    (some (writeCrontab
      ((parseCrontab (state.getD [])).filter
        (fun j => decide (j.jtype ≠ "backup_".data ++ service)) ++
       [⟨m1, hh1, d1, mo1, w1, buildBackupCommand service o1, s1,
         "backup_".data ++ service⟩]) now1))
    service s2 o2 now2 hv2 _ _ _ _ _ hsp2
  rw [Option.getD_some, efilter1] at est2
  have hwf2 : ∀ j ∈ ((parseCrontab (state.getD [])).filter
      (fun j => decide (j.jtype ≠ "backup_".data ++ service))).map reparse ++
      [⟨m2, hh2, d2, mo2, w2, buildBackupCommand service o2, s2,
        "backup_".data ++ service⟩], WfJob j := by
    intro j hj
    rw [List.mem_append] at hj
    rcases hj with hj | hj
    · rw [List.mem_map] at hj
      obtain ⟨x, hx, hxe⟩ := hj
      rw [← hxe]
      exact reparse_wf x (hkept1 x hx).1
    · rw [List.mem_singleton] at hj
      rw [hj]
      exact scheduleJob_wf service o2 _ _ _ _ _ g2a g2b g2c g2d g2e hfm2 _ _
  have eparse2 := parseCrontab_writeCrontab _ now2 hwf2
  have efinal : (parseCrontab (writeCrontab
        (((parseCrontab (state.getD [])).filter
          (fun j => decide (j.jtype ≠ "backup_".data ++ service))).map reparse ++
         [⟨m2, hh2, d2, mo2, w2, buildBackupCommand service o2, s2,
           "backup_".data ++ service⟩]) now2)).filter
        (fun j => decide (j.jtype = "backup_".data ++ service)) =
      [⟨m2, hh2, d2, mo2, w2, buildBackupCommand service o2,
        joinFields m2 hh2 d2 mo2 w2, "backup_".data ++ service⟩] := by
    rw [eparse2, List.map_append, List.filter_append]
    rw [filter_eq_map_reparse_nil _ _ ?hcond]
    case hcond =>
      intro j hj
      rw [List.mem_map] at hj
      obtain ⟨x, hx, hxe⟩ := hj
      constructor
      · rw [← hxe]
        rfl
      · rw [← hxe]
        show identifyJobType x.command ≠ "backup_".data ++ service
        rw [← (hkept1 x hx).2.1]
        exact (hkept1 x hx).2.2
    have hJ2t : identifyJobType (buildBackupCommand service o2) =
        "backup_".data ++ service := identifyJobType_build service o2 hs
    simp [reparse, hJ2t]
  refine ⟨by rw [est1], ?_, ?_⟩
  · simp only [est1]
    rw [est2]
  · simp only [est1]
    refine ⟨_, m2, hh2, d2, mo2, w2, ?_, hsp2, efinal⟩
    rw [est2]

/-- Witness for claim C4 at a concrete state and concrete schedules. -/
theorem c4_schedule_twice_one_entry_per_type_witness :
    (scheduleBackup none "nginx".data "0 2 * * *".data ⟨false, false⟩ "t1".data).1
      = true ∧
    (scheduleBackup (scheduleBackup none "nginx".data "0 2 * * *".data
        ⟨false, false⟩ "t1".data).2 "nginx".data "0 3 * * *".data ⟨true, false⟩
        "t2".data).1 = true ∧
    ∃ lines2 m h d mo w,
      (scheduleBackup (scheduleBackup none "nginx".data "0 2 * * *".data
          ⟨false, false⟩ "t1".data).2 "nginx".data "0 3 * * *".data ⟨true, false⟩
          "t2".data).2 = some lines2 ∧
      pySplitWs "0 3 * * *".data = [m, h, d, mo, w] ∧
      (parseCrontab lines2).filter
          (fun j => decide (j.jtype = "backup_".data ++ "nginx".data))
        = [⟨m, h, d, mo, w, buildBackupCommand "nginx".data ⟨true, false⟩,
            joinFields m h d mo w, "backup_".data ++ "nginx".data⟩] :=
  c4_schedule_twice_one_entry_per_type none "nginx".data "0 2 * * *".data
    "0 3 * * *".data ⟨false, false⟩ ⟨true, false⟩ "t1".data "t2".data
    (Or.inl rfl) (by decide) (by decide)

/-- Claim C1 (code bug): with one archive listed, enough disk space and an
existing installation, requesting an archive name that does not exist stops
the service, snapshots and removes the current installation, and only then
attempts extraction, which fails; the restore returns failure after the
installation directory has already been deleted, contradicting the
extraction-before-deletion requirement. -/
theorem c1_restore_removes_install_before_extraction :
    restoreNginx ⟨["a1".data], true, true, fun _ => false, true⟩ "missing".data
      = (false, [RsEvent.stopService, RsEvent.snapshotInstall, RsEvent.removeInstall,
          RsEvent.extractArchive "missing".data false]) := rfl

/-- Claim C2 counterexample: archives named `a1` (created first) and `a2`
(created later) with the repository listing returned oldest-first; resolving
"latest" yields `a1`, not the maximum-creation-time archive `a2`, so the
selection is not independent of listing order. -/
theorem c2_latest_counterexample :
    selectArchive "latest".data ["a1".data, "a2".data] = some "a1".data ∧
    ("a1".data : List Char) ≠ "a2".data := by decide

/-- Claim C2 (amended): resolving "latest" returns the first archive in the
order the repository listing supplies, whatever that order is; the restore
flow then attempts extraction of exactly that first-listed archive. -/
theorem c2_latest_is_first_listed (b0 : List Char) (rest : List (List Char)) :
    selectArchive "latest".data (b0 :: rest) = some b0 ∧
    ∀ e : RestoreEnv, e.listing = b0 :: rest → e.diskOk = true →
      RsEvent.extractArchive b0 (e.extractOk b0) ∈ (restoreNginx e "latest".data).2 := by
  constructor
  · rfl
  · intro e hl hd
    have hsel : selectArchive "latest".data (b0 :: rest) = some b0 := rfl
    unfold restoreNginx
    rw [hl, hsel, hd]
    by_cases hx : e.extractOk b0 <;> by_cases hy : e.extractedDirFound <;>
      simp [hx, hy]

/-- Witness for the amended claim C2 at a concrete environment. -/
theorem c2_latest_is_first_listed_witness :
    RsEvent.extractArchive "a1".data true ∈
      (restoreNginx ⟨["a1".data, "a2".data], true, true, fun _ => true, true⟩
        "latest".data).2 :=
  (c2_latest_is_first_listed "a1".data ["a2".data]).2
    ⟨["a1".data, "a2".data], true, true, fun _ => true, true⟩ rfl rfl

/-- Claim C3 (code bug): the validator accepts plain numeric, comma-list,
list-with-step and bare-wildcard fields with correct bounds (including the
boundary expression `59 23 31 12 6`) and rejects 4- and 6-field strings, but
it rejects the range form (`1-5`) and the step-on-wildcard form (`*/6`) of
the documented grammar — even though `0 */6 * * *` is the code's own
`every_6_hours` preset value. -/
theorem c3_validator_rejects_own_preset :
    ("every_6_hours".data, "0 */6 * * *".data) ∈ getSchedulePresets ∧
    validateCronSchedule "0 */6 * * *".data = false ∧
    validateCronSchedule "0 */12 * * *".data = false ∧
    validateCronSchedule "1-5 * * * *".data = false ∧
    validateCronSchedule "0 2 * * *".data = true ∧
    validateCronSchedule "59 23 31 12 6".data = true ∧
    validateCronSchedule "0 0 1 1 0".data = true ∧
    validateCronSchedule "1,2,30/5 2 * * *".data = true ∧
    validateCronSchedule "60 2 * * *".data = false ∧
    validateCronSchedule "0 24 * * *".data = false ∧
    validateCronSchedule "0 2 32 * *".data = false ∧
    validateCronSchedule "0 2 * 13 *".data = false ∧
    validateCronSchedule "0 2 * * 7".data = false ∧
    validateCronSchedule "0 2 * *".data = false ∧
    validateCronSchedule "0 2 * * * *".data = false := by decide

theorem cronLine_mem_writeCrontab (jobs : List CronJob) (now : List Char) (j : CronJob)
    (h : j ∈ jobs) : cronLine j ∈ writeCrontab jobs now := by
  unfold writeCrontab
  rw [List.mem_append]
  right
  rw [List.mem_flatMap]
  exact ⟨j, h, by simp⟩

/-- Claim C5 counterexample: rewriting the job table via a schedule operation
drops the prior table's unmanaged comment line and unmanaged environment
line, so unmanaged lines do not survive verbatim. -/
theorem c5_verbatim_counterexample :
    (scheduleBackup (some ["MAILTO=admin".data, "# my note".data,
        "0 1 * * * /usr/bin/foo".data]) "nginx".data "0 2 * * *".data
        ⟨false, false⟩ "2025-01-01 00:00:00".data).2 ≠ none ∧
    ¬ "# my note".data ∈ ((scheduleBackup (some ["MAILTO=admin".data,
        "# my note".data, "0 1 * * * /usr/bin/foo".data]) "nginx".data
        "0 2 * * *".data ⟨false, false⟩ "2025-01-01 00:00:00".data).2.getD []) ∧
    ¬ "MAILTO=admin".data ∈ ((scheduleBackup (some ["MAILTO=admin".data,
        "# my note".data, "0 1 * * * /usr/bin/foo".data]) "nginx".data
        "0 2 * * *".data ⟨false, false⟩ "2025-01-01 00:00:00".data).2.getD []) ∧
    "0 1 * * * /usr/bin/foo".data ∈ ((scheduleBackup (some ["MAILTO=admin".data,
        "# my note".data, "0 1 * * * /usr/bin/foo".data]) "nginx".data
        "0 2 * * *".data ⟨false, false⟩ "2025-01-01 00:00:00".data).2.getD []) := by
  decide

/-- Claim C5 (amended): in every table rewrite performed by a schedule or a
remove operation, each parsed cron entry of the prior table that the
operation keeps reappears in the new table as its re-serialized five-field
cron line (fields and command preserved, whitespace normalized); unmanaged
comment and environment lines are dropped, not preserved verbatim. -/
theorem c5_kept_jobs_reserialized :
    (∀ state service s options now j, validateCronSchedule s = true →
      j ∈ parseCrontab (state.getD []) → j.jtype ≠ "backup_".data ++ service →
      ∃ lines, (scheduleBackup state service s options now).2 = some lines ∧
        cronLine j ∈ lines) ∧
    (∀ lines jobType now j, j ∈ parseCrontab lines → j.jtype ≠ jobType →
      (removeSchedule (some lines) jobType now).1 = true →
      ∃ lines2, (removeSchedule (some lines) jobType now).2 = some lines2 ∧
        cronLine j ∈ lines2) := by
  constructor
  · intro state service s options now j hv hj hty
    obtain ⟨m, h, d, mo, w, hsp, -, -, -, -, -⟩ := validate_fields s hv
    rw [scheduleBackup_some state service s options now hv _ _ _ _ _ hsp]
    refine ⟨_, rfl, ?_⟩
    apply cronLine_mem_writeCrontab
    rw [List.mem_append]
    left
    rw [List.mem_filter]
    exact ⟨hj, decide_eq_true hty⟩
  · intro lines jobType now j hj hty hok
    simp only [removeSchedule] at hok ⊢
    by_cases hlen : ((parseCrontab lines).filter
        (fun j => decide (j.jtype ≠ jobType))).length = (parseCrontab lines).length
    · rw [if_pos hlen] at hok
      simp at hok
    · rw [if_neg hlen] at hok ⊢
      refine ⟨_, rfl, ?_⟩
      apply cronLine_mem_writeCrontab
      rw [List.mem_filter]
      exact ⟨hj, decide_eq_true hty⟩

/-- Witness for the amended claim C5 at concrete tables. -/
theorem c5_kept_jobs_reserialized_witness :
    (∃ lines, (scheduleBackup (some ["0 1 * * * /usr/bin/foo".data]) "nginx".data
        "0 2 * * *".data ⟨false, false⟩ "t1".data).2 = some lines ∧
      cronLine ⟨"0".data, "1".data, "*".data, "*".data, "*".data,
        "/usr/bin/foo".data, "0 1 * * *".data, "unknown".data⟩ ∈ lines) ∧
    (∃ lines2, (removeSchedule (some ["0 1 * * * /usr/bin/foo".data,
        "0 2 * * * run-cleanup-now".data]) "cleanup".data "t2".data).2
        = some lines2 ∧
      cronLine ⟨"0".data, "1".data, "*".data, "*".data, "*".data,
        "/usr/bin/foo".data, "0 1 * * *".data, "unknown".data⟩ ∈ lines2) :=
  ⟨c5_kept_jobs_reserialized.1 (some ["0 1 * * * /usr/bin/foo".data]) "nginx".data
      "0 2 * * *".data ⟨false, false⟩ "t1".data
      ⟨"0".data, "1".data, "*".data, "*".data, "*".data, "/usr/bin/foo".data,
        "0 1 * * *".data, "unknown".data⟩ (by decide) (by decide) (by decide),
   c5_kept_jobs_reserialized.2 ["0 1 * * * /usr/bin/foo".data,
      "0 2 * * * run-cleanup-now".data] "cleanup".data "t2".data
      ⟨"0".data, "1".data, "*".data, "*".data, "*".data, "/usr/bin/foo".data,
        "0 1 * * *".data, "unknown".data⟩ (by decide) (by decide) (by decide)⟩

/-- Claim C6 counterexample: when the disk-space check fails, it is the only
check executed — the SSH and passphrase checks are skipped, so not every
failing reason is collected. -/
theorem c6_checks_short_circuit_counterexample :
    (preBackupChecks ⟨false, false, false⟩).2 = [CheckName.diskSpace] ∧
    ¬ CheckName.sshConnection ∈ (preBackupChecks ⟨false, false, false⟩).2 ∧
    ¬ CheckName.passphrase ∈ (preBackupChecks ⟨false, false, false⟩).2 := by decide

/-- Claim C6 (amended): the pre-backup checks run in order (disk space, SSH,
passphrase) and stop at the first failure, so only the first failing reason
is collected; nevertheless, whenever the checks fail, the backup returns
failure with no stage of the destructive pipeline attempted. -/
theorem c6_preflight_gates_destructive_stages (e : BackupEnv) (verify : Bool)
    (h : (preBackupChecks e.pre).1 = false) :
    (backupNginx e verify).1 = BackupResult.returned false ∧
    (backupNginx e verify).2 = [] ∧
    (e.pre.diskOk = false → (preBackupChecks e.pre).2 = [CheckName.diskSpace]) ∧
    (e.pre.diskOk = true → e.pre.sshOk = false →
      (preBackupChecks e.pre).2 = [CheckName.diskSpace, CheckName.sshConnection]) := by
  refine ⟨?_, ?_, ?_, ?_⟩
  · unfold backupNginx
    rw [h]
    rfl
  · unfold backupNginx
    rw [h]
    rfl
  · intro hd
    unfold preBackupChecks
    rw [hd]
    rfl
  · intro hd hssh
    unfold preBackupChecks
    rw [hd, hssh]
    rfl

/-- Witness for the amended claim C6 at a concrete environment. -/
theorem c6_preflight_gates_destructive_stages_witness :
    (backupNginx ⟨⟨false, true, true⟩, true, true, true, CmdOutcome.ok⟩ true).1 =
      BackupResult.returned false ∧
    (backupNginx ⟨⟨false, true, true⟩, true, true, true, CmdOutcome.ok⟩ true).2 = [] ∧
    ((false : Bool) = false →
      (preBackupChecks ⟨false, true, true⟩).2 = [CheckName.diskSpace]) ∧
    ((false : Bool) = true → (true : Bool) = false →
      (preBackupChecks ⟨false, true, true⟩).2 =
        [CheckName.diskSpace, CheckName.sshConnection]) :=
  c6_preflight_gates_destructive_stages
    ⟨⟨false, true, true⟩, true, true, true, CmdOutcome.ok⟩ true (by decide)

/-- Claim C7 counterexample: archive creation succeeds and verification
fails, and the backup returns `False` — the overall result is failure, which
the claim denies. -/
theorem c7_verification_failure_counterexample :
    (backupNginx ⟨⟨true, true, true⟩, true, true, false, CmdOutcome.ok⟩ true).1 =
      BackupResult.returned false ∧
    (backupNginx ⟨⟨true, true, true⟩, true, true, false, CmdOutcome.ok⟩ true).2 =
      [BkEvent.createArchive, BkEvent.verifyArchive] := by decide

/-- Claim C7 (amended): when creation succeeds and the requested verification
fails, `backup_nginx` returns failure; the created archive is not rolled back
(creation happened, and no later repository mutation runs — pruning is
skipped), but the returned value does not distinguish this case from any
other failure. -/
theorem c7_verify_failure_returns_false (e : BackupEnv)
    (hpre : (preBackupChecks e.pre).1 = true) (hdir : e.nginxDirExists = true)
    (hcr : e.createOk = true) (hv : e.verifyOk = false) :
    (backupNginx e true).1 = BackupResult.returned false ∧
    BkEvent.createArchive ∈ (backupNginx e true).2 ∧
    ¬ BkEvent.pruneRepo ∈ (backupNginx e true).2 := by
  unfold backupNginx
  rw [hpre, hdir, hcr, hv]
  simp

/-- Witness for the amended claim C7 at a concrete environment. -/
theorem c7_verify_failure_returns_false_witness :
    (backupNginx ⟨⟨true, true, true⟩, true, true, false, CmdOutcome.ok⟩ true).1 =
      BackupResult.returned false ∧
    BkEvent.createArchive ∈
      (backupNginx ⟨⟨true, true, true⟩, true, true, false, CmdOutcome.ok⟩ true).2 ∧
    ¬ BkEvent.pruneRepo ∈
      (backupNginx ⟨⟨true, true, true⟩, true, true, false, CmdOutcome.ok⟩ true).2 :=
  c7_verify_failure_returns_false ⟨⟨true, true, true⟩, true, true, false, CmdOutcome.ok⟩
    (by decide) (by decide) (by decide) (by decide)

/-- Claim C8 counterexample: a run that reaches the pruning stage with the
borg-prune command timing out does not report success — the timeout escapes
`prune_old_backups` (which catches only `CalledProcessError`) and aborts
`backup_nginx`, which has no handler of its own. -/
theorem c8_prune_timeout_counterexample :
    BkEvent.pruneRepo ∈
      (backupNginx ⟨⟨true, true, true⟩, true, true, true, CmdOutcome.timedOut⟩ true).2 ∧
    (backupNginx ⟨⟨true, true, true⟩, true, true, true, CmdOutcome.timedOut⟩ true).1 ≠
      BackupResult.returned true := by decide

/-- Claim C8 (amended): for every run that reaches the pruning stage, a prune
failure by non-zero exit is ignored — the backup returns success exactly as
for a clean prune, since the boolean returned by `prune_old_backups` is never
consulted — but a prune timeout propagates as an uncaught exception and
aborts the backup instead of returning success. -/
theorem c8_prune_exit_failure_ignored (pre : PreflightEnv) (nd co vo : Bool)
    (po : CmdOutcome) (verify : Bool)
    (h : BkEvent.pruneRepo ∈ (backupNginx ⟨pre, nd, co, vo, po⟩ verify).2) :
    (backupNginx ⟨pre, nd, co, vo, CmdOutcome.ok⟩ verify).1 =
      BackupResult.returned true ∧
    (backupNginx ⟨pre, nd, co, vo, CmdOutcome.exitFail⟩ verify).1 =
      BackupResult.returned true ∧
    (backupNginx ⟨pre, nd, co, vo, CmdOutcome.timedOut⟩ verify).1 =
      BackupResult.raised := by
  obtain ⟨dk, sh, ps⟩ := pre
  cases dk <;> cases sh <;> cases ps <;> cases nd <;> cases co <;> cases vo <;>
    cases verify <;> cases po <;>
    simp_all [backupNginx, preBackupChecks, pruneOldBackups]

/-- Witness for the amended claim C8 at a concrete environment. -/
theorem c8_prune_exit_failure_ignored_witness :
    (backupNginx ⟨⟨true, true, true⟩, true, true, true, CmdOutcome.ok⟩ true).1 =
      BackupResult.returned true ∧
    (backupNginx ⟨⟨true, true, true⟩, true, true, true, CmdOutcome.exitFail⟩ true).1 =
      BackupResult.returned true ∧
    (backupNginx ⟨⟨true, true, true⟩, true, true, true, CmdOutcome.timedOut⟩ true).1 =
      BackupResult.raised :=
  c8_prune_exit_failure_ignored ⟨true, true, true⟩ true true true CmdOutcome.exitFail
    true (by decide)

/-- Claim C9: a non-zero exit of the archive-list command yields the same
empty listing as a successful listing of an empty repository (for both the
restore-side and backup-side listing functions), and restoring "latest" from
such a listing fails with no destructive step attempted. -/
theorem c9_failed_listing_indistinguishable (r : CmdResult) (h : r.rc ≠ 0)
    (diskOk nginxExists : Bool) (extractOk : List Char → Bool) (found : Bool) :
    listRemoteBackups r = [] ∧
    listRemoteBackups r = listRemoteBackups ⟨0, "".data⟩ ∧
    listBackups r = [] ∧
    restoreNginx ⟨listRemoteBackups r, diskOk, nginxExists, extractOk, found⟩
      "latest".data = (false, []) := by
  have h1 : listRemoteBackups r = [] := by
    unfold listRemoteBackups
    rw [if_neg h]
  refine ⟨h1, by rw [h1]; rfl, ?_, ?_⟩
  · unfold listBackups
    rw [if_neg h]
  · rw [h1]
    rfl

/-- Witness for claim C9 at a concrete failed command. -/
theorem c9_failed_listing_indistinguishable_witness :
    listRemoteBackups ⟨2, "some stderr-like noise".data⟩ = [] ∧
    listRemoteBackups ⟨2, "some stderr-like noise".data⟩ =
      listRemoteBackups ⟨0, "".data⟩ ∧
    listBackups ⟨2, "some stderr-like noise".data⟩ = [] ∧
    restoreNginx ⟨listRemoteBackups ⟨2, "some stderr-like noise".data⟩, true, true,
      fun _ => true, true⟩ "latest".data = (false, []) :=
  c9_failed_listing_indistinguishable ⟨2, "some stderr-like noise".data⟩
    (by decide) true true (fun _ => true) true

/-- Claim C10: disabling all schedules removes the user's entire crontab —
whatever lines it contained, managed or foreign, the resulting state has no
crontab at all — and the operation reports success even when no crontab
existed to begin with. -/
theorem c10_disable_all_removes_entire_crontab (lines : List (List Char)) :
    (disableAllSchedules (some lines)).1 = true ∧
    (disableAllSchedules (some lines)).2 = none ∧
    (disableAllSchedules none).1 = true ∧
    (disableAllSchedules none).2 = none :=
  ⟨rfl, rfl, rfl, rfl⟩

end StratoSM
